import Mathlib

/-!
Verification of the in-silico peptide design and activation pipeline.

This file embeds the data model and the operations of the pipeline stages
`scoring.py`, `parse_docking.py`, `select_for_synthesis.py` and `refine.py`
as Lean definitions and proves the stated properties about them.

Modelling conventions:
* Python strings are lists of characters (`Str`).
* Python floats are exact rationals (`ℚ`); the three-decimal rendering
  performed by `f"{x:.3f}"` is modelled by `round3` / `formatQ3`.
* Python dicts keyed by strings are association lists with in-place update
  (`dictInsert`), which preserves Python's insertion-order iteration.
* File contents are passed explicitly: a missing file is `none`, a present
  file is `some` of its (line- or row-structured) content.
* Exceptions are modelled with `Option` / `Except`.
-/

namespace Peptide

/-- A Python string, modelled as its list of characters. -/
abbrev Str := List Char

/-- A CSV row as produced by `csv.DictReader`: a field-name/value mapping. -/
abbrev Row := List (Str × Str)

/-- Python `str.strip()`: remove leading and trailing whitespace. -/
def pyStrip (s : Str) : Str :=
  ((s.dropWhile Char.isWhitespace).reverse.dropWhile Char.isWhitespace).reverse

/-- Helper for `pySplitWs`: scan the string, accumulating the characters of
the current token in reverse in `acc`, flushing a token at each whitespace
run and at the end of the string. -/
def splitWsAux : Str → Str → List Str
  | [], acc => if acc = [] then [] else [acc.reverse]
  | c :: cs, acc =>
    if c.isWhitespace then
      if acc = [] then splitWsAux cs [] else acc.reverse :: splitWsAux cs []
    else splitWsAux cs (c :: acc)

/-- Python `str.split()` with no argument: split on runs of whitespace,
dropping empty parts. -/
def pySplitWs (s : Str) : List Str := splitWsAux s []

/-- Python `str.split(sep)` for a one-character separator `sep`: the parts
between occurrences of `sep`, keeping empty parts (the result is never the
empty list). -/
def pySplitOnChar (sep : Char) : Str → List Str
  | [] => [[]]
  | c :: cs =>
    if c = sep then [] :: pySplitOnChar sep cs
    else
      match pySplitOnChar sep cs with
      | [] => [[c]]
      | t :: ts => (c :: t) :: ts

/-- Numeric value of a run of decimal digit characters. -/
def digitsVal (ds : Str) : ℕ := ds.foldl (fun a c => 10 * a + (c.toNat - 48)) 0

/-- Optional leading sign: returns the sign (as an integer `1` or `-1`) and
the remaining characters. -/
def parseSign : Str → ℤ × Str
  | '+' :: cs => (1, cs)
  | '-' :: cs => (-1, cs)
  | cs => (1, cs)

/-- Modelled after Python's built-in `float(str)` on the numeric forms:
optional surrounding whitespace, an optional sign, a mantissa holding at
least one digit (integer part, and optionally a point and a fractional
part), and an optional decimal exponent.  The special forms
`inf` / `infinity` / `nan` and digit-group underscores are outside the
model, as no behaviour verified here depends on them.  `none` models a
`ValueError`. -/
def pyFloat? (s : Str) : Option ℚ :=
  let s1 := pyStrip s
  let sp := parseSign s1
  let sgn : ℚ := (sp.1 : ℚ)
  let s2 := sp.2
  let ip := s2.takeWhile Char.isDigit
  let s3 := s2.dropWhile Char.isDigit
  let fps : Str × Str :=
    match s3 with
    | '.' :: rest => (rest.takeWhile Char.isDigit, rest.dropWhile Char.isDigit)
    | _ => ([], s3)
  let fp := fps.1
  let s4 := fps.2
  if ip = [] ∧ fp = [] then none
  else
    let mant : ℚ := (digitsVal ip : ℚ) + (digitsVal fp : ℚ) / (10 : ℚ) ^ fp.length
    match s4 with
    | [] => some (sgn * mant)
    | e :: rest =>
      if e = 'e' ∨ e = 'E' then
        let ep := parseSign rest
        let ed := ep.2.takeWhile Char.isDigit
        let s5 := ep.2.dropWhile Char.isDigit
        if ed = [] ∨ s5 ≠ [] then none
        else some (sgn * mant * (10 : ℚ) ^ (ep.1 * (digitsVal ed : ℤ)))
      else none

/-- Python dict assignment `d[k] = v` on an association list: replace the
binding in place when the key is present (keeping its position, as Python
dicts keep the original insertion position), append otherwise. -/
def dictInsert {β : Type} (d : List (Str × β)) (k : Str) (v : β) : List (Str × β) :=
  match d with
  | [] => [(k, v)]
  | (k', v') :: rest => if k' = k then (k, v) :: rest else (k', v') :: dictInsert rest k v

/-- Python `d.get(k)` / `d[k]` lookup on an association list. -/
def dictGet? {β : Type} (d : List (Str × β)) (k : Str) : Option β :=
  match d with
  | [] => none
  | (k', v) :: rest => if k' = k then some v else dictGet? rest k

/-! ### read_library_fasta (scoring.py) -/

/-- Loop state of `read_library_fasta`: the sequences accumulated so far,
the id of the record being read, and its sequence chunks. -/
structure FastaSt where
  sequences : List (Str × Str)
  current_id : Option Str
  seq_chunks : List Str

/-- Store the record being read, if any: `sequences[current_id] = "".join(seq_chunks)`. -/
def flushFasta (st : FastaSt) : List (Str × Str) :=
  match st.current_id with
  | none => st.sequences
  | some cid => dictInsert st.sequences cid st.seq_chunks.flatten

/-- Canonical id derivation from a header line: with `rest` the characters
after the `>` marker, this is `line[1:].split()[0].split("|")[0]` — the
first whitespace-delimited token, truncated at its first `|`.  `none`
models the `IndexError` raised by the `[0]` index when the header holds no
token after `>`. -/
def canonicalId (rest : Str) : Option Str :=
  match pySplitWs rest with
  | [] => none
  | raw_id :: _ => some (pySplitOnChar '|' raw_id).headI

/-- One iteration of the `read_library_fasta` line loop. -/
def fastaStep (st : FastaSt) (rawLine : Str) : Option FastaSt :=
  match pyStrip rawLine with
  | [] => some st
  | c :: rest =>
    if c = '>' then
      match canonicalId rest with
      | none => none
      | some cid => some { sequences := flushFasta st, current_id := some cid, seq_chunks := [] }
    else
      some { st with seq_chunks := st.seq_chunks ++ [c :: rest] }

/-- Function `read_library_fasta`: read a multi-FASTA file (given as its list of
lines) into an id ↦ sequence mapping.  `none` models an uncaught
exception escaping the function. -/
def read_library_fasta (lines : List Str) : Option (List (Str × Str)) :=
  (lines.foldlM fastaStep { sequences := [], current_id := none, seq_chunks := [] }).map
    flushFasta

/-! ### read_docking_results (scoring.py) -/

def kVariantId : Str := "variant_id".toList
def kDockingScore : Str := "docking_score".toList
def kCompositeScore : Str := "composite_score".toList
def kRefinedScore : Str := "refined_composite_score".toList

/-- One iteration of the `read_docking_results` row loop:
`scores[row["variant_id"]] = float(row["docking_score"])`, where a
`KeyError` (missing field) or `ValueError` (unparseable number) is caught
and the row is skipped. -/
def dockStep (scores : List (Str × ℚ)) (row : Row) : List (Str × ℚ) :=
  match dictGet? row kVariantId, (dictGet? row kDockingScore).bind pyFloat? with
  | some vid, some q => dictInsert scores vid q
  | _, _ => scores

/-- The row loop of `read_docking_results` over the rows of the CSV. -/
def read_docking_rows (rows : List Row) : List (Str × ℚ) :=
  rows.foldl dockStep []

/-- Function `read_docking_results`: a missing file (`none`) yields the empty
mapping (a warning only, not an error). -/
def read_docking_results (file : Option (List Row)) : List (Str × ℚ) :=
  match file with
  | none => []
  | some rows => read_docking_rows rows

/-! ### compute_composite_scores (scoring.py) -/

/-- Sequence-derived properties as returned by
`design_library.compute_properties` (a module outside the scored stage);
`compute_composite_scores` is parametrised over the function producing
them, since only the numbers it returns matter here. -/
structure PepProps where
  net_charge : ℚ
  avg_hydrophobicity : ℚ
  length : ℕ
deriving DecidableEq

/-- A scored variant record as assembled by `compute_composite_scores`.
The numeric fields hold the exact computed values; the CSV serialisation
renders each at three decimals (see `round3`). -/
structure ScoredVariant where
  variant_id : Str
  sequence : Str
  docking_score : ℚ
  net_charge : ℚ
  avg_hydrophobicity : ℚ
  length : ℕ
  composite_score : ℚ
deriving DecidableEq

/-- The value written by `f"{x:.3f}"` and read back by `float(...)`: `x`
rounded to three decimal places (round half away from the floor; exact
decimal midpoints aside, this agrees with Python's rendering). -/
def round3 (x : ℚ) : ℚ := (Rat.floor (x * 1000 + 1/2) : ℚ) / 1000

/-- Assembly of one record of the `compute_composite_scores` loop body:
docking score defaulting to `0.0` when the id is absent, and
`composite = docking_score + 0.1 * abs(net_charge) + 0.2 * abs(avg_hydrophobicity)`. -/
def mkScored (props : Str → PepProps) (docking : List (Str × ℚ)) (vid seq : Str) :
    ScoredVariant :=
  let p := props seq
  let docking_score := (dictGet? docking vid).getD 0
  { variant_id := vid
    sequence := seq
    docking_score := docking_score
    net_charge := p.net_charge
    avg_hydrophobicity := p.avg_hydrophobicity
    length := p.length
    composite_score := docking_score + (1/10) * |p.net_charge| + (2/10) * |p.avg_hydrophobicity| }

/-- Sort key relation of `records.sort(key=lambda r: float(r["composite_score"]))`:
the CSV field holds the three-decimal rendering of the composite score, so
the key compares the rounded values. -/
def scoreLe (a b : ScoredVariant) : Prop :=
  round3 a.composite_score ≤ round3 b.composite_score

instance : DecidableRel scoreLe :=
  fun _ _ => inferInstanceAs (Decidable (_ ≤ _))

instance : IsTotal ScoredVariant scoreLe :=
  ⟨fun _ _ => le_total _ _⟩

instance : IsTrans ScoredVariant scoreLe :=
  ⟨fun _ _ _ => le_trans⟩

/-- Function `compute_composite_scores`, from the library mapping on: build one
record per library entry, then sort ascending by composite score
(`list.sort` is a stable ascending sort, modelled by insertion sort). -/
def compute_composite_scores (props : Str → PepProps)
    (sequences : List (Str × Str)) (docking : List (Str × ℚ)) : List ScoredVariant :=
  List.insertionSort scoreLe (sequences.map fun p => mkScored props docking p.1 p.2)

/-- Errors escaping `compute_composite_scores`. -/
inductive PipelineError where
  | notFound
  | indexError
deriving DecidableEq

/-- Function `compute_composite_scores` at file level: a missing library FASTA
raises `FileNotFoundError`; the docking results file is read with
`read_docking_results` (missing docking file → empty mapping). -/
def compute_composite_scores_io (props : Str → PepProps)
    (library_file : Option (List Str)) (docking_file : Option (List Row)) :
    Except PipelineError (List ScoredVariant) :=
  match library_file with
  | none => .error .notFound
  | some lines =>
    match read_library_fasta lines with
    | none => .error .indexError
    | some sequences =>
      .ok (compute_composite_scores props sequences (read_docking_results docking_file))

/-- The rank/record pairs written by `write_scored_csv`:
`enumerate(records, start=1)`. -/
def write_scored_rows (records : List ScoredVariant) : List (ℕ × ScoredVariant) :=
  records.enum.map fun p => (p.1 + 1, p.2)

/-! ### select_top_variants (select_for_synthesis.py) -/

/-- Python slice `l[:n]` with an arbitrary (possibly negative) stop index:
a nonnegative `n` keeps the first `min n (length l)` elements, a negative
`n` keeps the first `max 0 (length l - |n|)` elements. -/
def pySliceTo {α : Type} (l : List α) (n : ℤ) : List α :=
  if 0 ≤ n then l.take n.toNat else l.take (l.length - n.natAbs)

/-- Function `select_top_variants`: `records[:top_n]` behind an early return for the
empty list. -/
def select_top_variants (records : List Row) (top_n : ℤ) : List Row :=
  if records = [] then [] else pySliceTo records top_n

/-! ### refine_scores (refine.py) -/

/-- Zero-pad a natural number below 1000 to three digit characters. -/
def pad3 (n : ℕ) : Str :=
  if n < 10 then '0' :: '0' :: Nat.toDigits 10 n
  else if n < 100 then '0' :: Nat.toDigits 10 n
  else Nat.toDigits 10 n

/-- The string written by `f"{x:.3f}"`: sign, integer part, point, and the
three decimal digits of `x` rounded to three decimals. -/
def formatQ3 (x : ℚ) : Str :=
  let m := Rat.floor (x * 1000 + 1/2)
  (if m < 0 then ['-'] else []) ++
    Nat.toDigits 10 (m.natAbs / 1000) ++ '.' :: pad3 (m.natAbs % 1000)

/-- The row transform of the `refine_scores` loop body: parse
`row["composite_score"]` (a caught `KeyError` / `ValueError` degrades the
base to `0.0`), subtract `0.1`, and store the result under
`refined_composite_score` at three decimals. -/
def refine_row (row : Row) : Row :=
  let comp : ℚ := ((dictGet? row kCompositeScore).bind pyFloat?).getD 0
  dictInsert row kRefinedScore (formatQ3 (comp - 1/10))

/-- The record-building loop of `refine_scores` over the rows of
`selected_variants.csv`. -/
def refine_scores_rows (rows : List Row) : List Row :=
  rows.foldl (fun records row => records ++ [refine_row row]) []

/-! ### parse_vina_log / collect_docking_results (parse_docking.py) -/

/-- Is `pat` an initial segment of `s`? -/
def startsWith : Str → Str → Bool
  | [], _ => true
  | _ :: _, [] => false
  | p :: ps, c :: cs => p = c && startsWith ps cs

/-- Python substring containment `pat in s`. -/
def containsSeq (pat : Str) : Str → Bool
  | [] => startsWith pat []
  | c :: cs => startsWith pat (c :: cs) || containsSeq pat cs

def VINA_MARKER : Str := "REMARK VINA RESULT:".toList

/-- The inner token loop of `parse_vina_log`: return the value of the
first token parseable as a float, if any. -/
def firstFloatToken : List Str → Option ℚ
  | [] => none
  | t :: ts =>
    match pyFloat? t with
    | some q => some q
    | none => firstFloatToken ts

/-- The line loop of `parse_vina_log`: on each line containing the marker,
try its whitespace-delimited tokens; return at the first token that parses
as a float, otherwise keep scanning. -/
def vinaScan : List Str → Option ℚ
  | [] => none
  | line :: rest =>
    if containsSeq VINA_MARKER line then
      match firstFloatToken (pySplitWs line) with
      | some q => some q
      | none => vinaScan rest
    else vinaScan rest

/-- Function `parse_vina_log`: `none` for a missing log file, otherwise scan its
lines. -/
def parse_vina_log (file : Option (List Str)) : Option ℚ :=
  match file with
  | none => none
  | some lines => vinaScan lines

/-- The per-variant score assignment of `collect_docking_results`: the
parsed score when one was found, else the neutral placeholder `0.0`. -/
def variantScore (file : Option (List Str)) : ℚ :=
  (parse_vina_log file).getD 0

/-- Number of occurrences of a key in a list of keys (with the
decidable-equality instance). -/
def countKey (vid : Str) (l : List Str) : ℕ := @List.count Str instBEqOfDecidableEq vid l

/-- Does a stripped line that is a FASTA header carry at least one
non-whitespace character after the `>` marker?  (Non-header lines are
always safe.)  This is the precondition under which `read_library_fasta`
cannot hit the `IndexError` of `canonicalId`. -/
def headerSafe (l : Str) : Bool :=
  match pyStrip l with
  | [] => true
  | c :: rest => if c = '>' then rest.any (fun d => !d.isWhitespace) else true

/-! ### Helper lemmas -/

theorem dictGet?_dictInsert_self {β : Type} (d : List (Str × β)) (k : Str) (v : β) :
    dictGet? (dictInsert d k v) k = some v := by
  induction d with
  | nil => simp [dictInsert, dictGet?]
  | cons hd tl ih =>
    obtain ⟨k', v'⟩ := hd
    by_cases h : k' = k
    · simp [dictInsert, dictGet?, h]
    · simp [dictInsert, dictGet?, h, ih]

theorem dictGet?_dictInsert_of_ne {β : Type} (d : List (Str × β)) {k k' : Str} (v : β)
    (h : k ≠ k') : dictGet? (dictInsert d k v) k' = dictGet? d k' := by
  induction d with
  | nil => simp [dictInsert, dictGet?, h]
  | cons hd tl ih =>
    obtain ⟨k₀, v₀⟩ := hd
    by_cases h0 : k₀ = k
    · subst h0
      simp [dictInsert, dictGet?, h]
    · simp [dictInsert, dictGet?, h0, ih]

theorem mem_ccs_iff {props : Str → PepProps} {sequences : List (Str × Str)}
    {docking : List (Str × ℚ)} {r : ScoredVariant} :
    r ∈ compute_composite_scores props sequences docking ↔
      r ∈ sequences.map fun p => mkScored props docking p.1 p.2 :=
  (List.perm_insertionSort _ _).mem_iff

theorem composite_formula_of_mem {props : Str → PepProps} {sequences : List (Str × Str)}
    {docking : List (Str × ℚ)} {r : ScoredVariant}
    (hr : r ∈ compute_composite_scores props sequences docking) :
    r.composite_score =
      r.docking_score + (1/10) * |r.net_charge| + (2/10) * |r.avg_hydrophobicity| := by
  rcases List.mem_map.1 (mem_ccs_iff.1 hr) with ⟨p, -, rfl⟩
  simp [mkScored]

theorem docking_score_of_get_none {props : Str → PepProps} {sequences : List (Str × Str)}
    {docking : List (Str × ℚ)} {r : ScoredVariant}
    (hr : r ∈ compute_composite_scores props sequences docking)
    (h : dictGet? docking r.variant_id = none) : r.docking_score = 0 := by
  rcases List.mem_map.1 (mem_ccs_iff.1 hr) with ⟨p, -, rfl⟩
  simp only [mkScored] at h ⊢
  simp [h]

theorem foldl_append_singleton {α β : Type} (f : α → β) (l : List α) (init : List β) :
    l.foldl (fun acc x => acc ++ [f x]) init = init ++ l.map f := by
  induction l generalizing init with
  | nil => simp
  | cons hd tl ih => simp [ih]

/-! ### Concrete fixtures used by the witnesses -/

def props0 : Str → PepProps := fun _ => { net_charge := 2, avg_hydrophobicity := -3/2, length := 3 }
def vV1 : Str := "V1".toList
def vV2 : Str := "V2".toList
def vV3 : Str := "V3".toList
def seqs0 : List (Str × Str) := [(vV1, "ACD".toList)]
def dock0 : List (Str × ℚ) := [(vV1, -5)]
def rowA : Row := [(kVariantId, "a".toList)]
def rowB : Row := [(kVariantId, "b".toList)]
def rowC : Row := [(kCompositeScore, "3.456".toList)]
def seqs3 : List (Str × Str) := [(vV1, "AA".toList), (vV2, "CC".toList), (vV3, "DD".toList)]
def dock3 : List (Str × ℚ) := [(vV1, -5), (vV2, -4)]
def lib0 : List Str := [">V1|x".toList, "ACD".toList]
def vinaLog0 : List Str := ["ligand info".toList, "REMARK VINA RESULT:   -7.5  0.000".toList]
def vinaLogNoMarker : List Str := ["nothing to see".toList]
def goodRow : Row := [(kVariantId, vV1), (kDockingScore, "-5.0".toList)]
def badRow : Row := [(kVariantId, vV2), (kDockingScore, "oops".toList)]

/-! ### Claims -/

/-- C1: every variant assembled by `compute_composite_scores` satisfies
`composite_score = docking_score + 0.1 * |net_charge| + 0.2 * |avg_hydrophobicity|`
(the witness checks the spec's instance: docking `-5.0`, net charge `2.0`,
average hydrophobicity `-1.5` give composite `-4.5`). -/
theorem C1_composite_formula (props : Str → PepProps) (sequences : List (Str × Str))
    (docking : List (Str × ℚ)) (r : ScoredVariant)
    (hr : r ∈ compute_composite_scores props sequences docking) :
    r.composite_score =
      r.docking_score + (1/10) * |r.net_charge| + (2/10) * |r.avg_hydrophobicity| :=
  composite_formula_of_mem hr

theorem C1_composite_formula_witness :
    mkScored props0 dock0 vV1 "ACD".toList ∈ compute_composite_scores props0 seqs0 dock0 ∧
    (mkScored props0 dock0 vV1 "ACD".toList).composite_score = -9/2 := by
  have hmem : mkScored props0 dock0 vV1 "ACD".toList ∈
      compute_composite_scores props0 seqs0 dock0 := by
    with_unfolding_all decide
  refine ⟨hmem, ?_⟩
  rw [C1_composite_formula props0 seqs0 dock0 _ hmem]
  with_unfolding_all decide

/-- C4 counterexample: the claim says `top_n <= 0` yields the empty
selection, but Python's `records[:top_n]` with `top_n = -1` on a two-row
list keeps the first row. -/
theorem C4_counterexample :
    select_top_variants [rowA, rowB] (-1) = [rowA] ∧
    select_top_variants [rowA, rowB] (-1) ≠ [] := by
  with_unfolding_all decide

/-- C4 (amended): `select_top_variants` returns the slice `records[:top_n]`
without re-sorting: for `0 ≤ top_n` the first `top_n` rows, `top_n = 0`
the empty selection, `top_n` at least the length the full list unchanged,
and a negative `top_n` the list with its last `|top_n|` rows dropped. -/
theorem C4_select_slice (records : List Row) (n : ℤ) :
    (0 ≤ n → select_top_variants records n = records.take n.toNat)
    ∧ select_top_variants records 0 = []
    ∧ ((records.length : ℤ) ≤ n → select_top_variants records n = records)
    ∧ (n < 0 → select_top_variants records n = records.take (records.length - n.natAbs)) := by
  by_cases hrec : records = []
  · subst hrec
    simp [select_top_variants]
  · refine ⟨fun hn => ?_, ?_, fun hn => ?_, fun hn => ?_⟩
    · simp [select_top_variants, hrec, pySliceTo, hn]
    · simp [select_top_variants, hrec, pySliceTo]
    · have h0 : (0:ℤ) ≤ n := le_trans (Int.natCast_nonneg _) hn
      have hlen : records.length ≤ n.toNat := by omega
      simp [select_top_variants, hrec, pySliceTo, h0, List.take_of_length_le hlen]
    · have h0 : ¬ (0:ℤ) ≤ n := by omega
      simp [select_top_variants, hrec, pySliceTo, h0]

theorem C4_select_slice_witness :
    select_top_variants [rowA, rowB] 100 = [rowA, rowB]
    ∧ select_top_variants [rowA, rowB] 0 = []
    ∧ select_top_variants [rowA, rowB] (-5) = [] := by
  refine ⟨(C4_select_slice [rowA, rowB] 100).2.2.1 (by decide),
    (C4_select_slice [rowA, rowB] 0).2.1, ?_⟩
  have h := (C4_select_slice [rowA, rowB] (-5)).2.2.2 (by decide)
  rw [h]
  with_unfolding_all decide

/-- C5: the refinement stub is total and deterministic: it maps every row,
preserving the batch length; each row receives
`refined_composite_score = composite_score - 0.1` at three decimals, with
a missing or unparseable `composite_score` degrading the base to `0.0`
(the witness checks `3.456 ↦ 3.356`). -/
theorem C5_refine (rows : List Row) (row : Row) (q : ℚ) :
    refine_scores_rows rows = rows.map refine_row
    ∧ (refine_scores_rows rows).length = rows.length
    ∧ ((dictGet? row kCompositeScore).bind pyFloat? = some q →
        dictGet? (refine_row row) kRefinedScore = some (formatQ3 (q - 1/10)))
    ∧ ((dictGet? row kCompositeScore).bind pyFloat? = none →
        dictGet? (refine_row row) kRefinedScore = some (formatQ3 (0 - 1/10))) := by
  have hmap : refine_scores_rows rows = rows.map refine_row := by
    simpa using foldl_append_singleton refine_row rows []
  refine ⟨hmap, by rw [hmap]; simp, fun h => ?_, fun h => ?_⟩
  · simp [refine_row, h, dictGet?_dictInsert_self]
  · simp [refine_row, h, dictGet?_dictInsert_self]

theorem C5_refine_witness :
    dictGet? (refine_row rowC) kRefinedScore = some "3.356".toList := by
  have h := (C5_refine [rowC] rowC (432/125)).2.2.1 (by with_unfolding_all decide)
  rw [h]
  with_unfolding_all decide

/-- C6: an absent library FASTA is a hard `FileNotFoundError`, whereas an
absent docking-results file degrades to the empty docking mapping, so
every scored variant receives the placeholder docking score `0.0`. -/
theorem C6_missing_files (props : Str → PepProps) (dock : Option (List Row)) (lib : List Str) :
    compute_composite_scores_io props none dock = .error .notFound
    ∧ read_docking_results none = ([] : List (Str × ℚ))
    ∧ (∀ recs, compute_composite_scores_io props (some lib) none = .ok recs →
        ∀ r ∈ recs, r.docking_score = 0) := by
  refine ⟨rfl, rfl, fun recs hrecs r hr => ?_⟩
  have hrecs' : (match read_library_fasta lib with
      | none => Except.error PipelineError.indexError
      | some sequences =>
        Except.ok (compute_composite_scores props sequences (read_docking_results none))) =
      Except.ok recs := hrecs
  cases hlib : read_library_fasta lib with
  | none =>
    rw [hlib] at hrecs'
    exact absurd hrecs' (by simp)
  | some seqs =>
    rw [hlib] at hrecs'
    simp only [Except.ok.injEq] at hrecs'
    subst hrecs'
    exact docking_score_of_get_none hr rfl

/-- C2: the list returned by `compute_composite_scores` is sorted
ascending by composite score as written to the CSV (`scoreLe` compares the
three-decimal values the sort key re-parses), and `write_scored_csv`
assigns each row the 1-based rank equal to its position in that order. -/
theorem C2_sorted_and_ranked (props : Str → PepProps) (sequences : List (Str × Str))
    (docking : List (Str × ℚ)) (records : List ScoredVariant) :
    (compute_composite_scores props sequences docking).Pairwise scoreLe
    ∧ (write_scored_rows records).map Prod.fst = List.range' 1 records.length
    ∧ (write_scored_rows records).map Prod.snd = records := by
  refine ⟨List.sorted_insertionSort scoreLe _, ?_, ?_⟩
  · rw [write_scored_rows, List.map_map, List.range'_eq_map_range,
      ← List.enum_map_fst records, List.map_map]
    exact List.map_congr_left fun p _ => Nat.add_comm p.1 1
  · have h2 : records.enum.map (Prod.snd ∘ fun p : ℕ × ScoredVariant => (p.1 + 1, p.2))
        = records.enum.map Prod.snd := List.map_congr_left fun p _ => rfl
    rw [write_scored_rows, List.map_map, h2, List.enum_map_snd]

/-- C3: the library defines the complete candidate universe: the output
ids are a permutation of the library ids (for a unique-keyed library
mapping, exactly one row per id), an id with no docking entry receives
docking score `0.0`, and no output row carries an id outside the library. -/
theorem C3_universe (props : Str → PepProps) (sequences : List (Str × Str))
    (docking : List (Str × ℚ)) :
    ((compute_composite_scores props sequences docking).map ScoredVariant.variant_id).Perm
        (sequences.map Prod.fst)
    ∧ (∀ r ∈ compute_composite_scores props sequences docking,
        dictGet? docking r.variant_id = none → r.docking_score = 0)
    ∧ (∀ r ∈ compute_composite_scores props sequences docking,
        r.variant_id ∈ sequences.map Prod.fst)
    ∧ ((sequences.map Prod.fst).Nodup → ∀ vid ∈ sequences.map Prod.fst,
        countKey vid ((compute_composite_scores props sequences docking).map
            ScoredVariant.variant_id) = 1) := by
  have hperm : ((compute_composite_scores props sequences docking).map
      ScoredVariant.variant_id).Perm (sequences.map Prod.fst) := by
    have h1 := (List.perm_insertionSort scoreLe
      (sequences.map fun p => mkScored props docking p.1 p.2)).map ScoredVariant.variant_id
    refine h1.trans ?_
    rw [List.map_map]
    exact List.Perm.of_eq (List.map_congr_left fun p _ => rfl)
  refine ⟨hperm, fun r hr h => docking_score_of_get_none hr h, fun r hr => ?_,
    fun hnd vid hvid => ?_⟩
  · exact hperm.mem_iff.1 (List.mem_map_of_mem _ hr)
  · rw [countKey, hperm.count_eq]
    exact List.count_eq_one_of_mem hnd hvid

set_option maxRecDepth 40000 in
theorem C3_universe_witness :
    countKey vV3 ((compute_composite_scores props0 seqs3 dock3).map ScoredVariant.variant_id) = 1
    ∧ (mkScored props0 dock3 vV3 "DD".toList).docking_score = 0 := by
  constructor
  · exact (C3_universe props0 seqs3 dock3).2.2.2 (by with_unfolding_all decide) vV3
      (by with_unfolding_all decide)
  · exact (C3_universe props0 seqs3 dock3).2.1 _ (by with_unfolding_all decide)
      (by with_unfolding_all decide)

theorem C6_missing_files_witness :
    compute_composite_scores_io props0 none (some []) = .error .notFound ∧
    (mkScored props0 [] vV1 "ACD".toList).docking_score = 0 := by
  refine ⟨(C6_missing_files props0 (some []) lib0).1, ?_⟩
  exact (C6_missing_files props0 (some []) lib0).2.2
    (compute_composite_scores props0 [(vV1, "ACD".toList)] [])
    (by with_unfolding_all rfl)
    _ (by with_unfolding_all decide)

theorem firstFloatToken_eq (ts : List Str) :
    firstFloatToken ts = (ts.filterMap pyFloat?).head? := by
  induction ts with
  | nil => rfl
  | cons t ts ih =>
    cases h : pyFloat? t with
    | some q => simp [firstFloatToken, h, List.filterMap_cons]
    | none => simp [firstFloatToken, h, List.filterMap_cons, ih]

theorem vinaScan_eq (lines : List Str) :
    vinaScan lines = (lines.filterMap fun l =>
      if containsSeq VINA_MARKER l then firstFloatToken (pySplitWs l) else none).head? := by
  induction lines with
  | nil => rfl
  | cons line rest ih =>
    by_cases hm : containsSeq VINA_MARKER line
    · cases hf : firstFloatToken (pySplitWs line) with
      | some q => simp [vinaScan, hm, hf, List.filterMap_cons]
      | none => simp [vinaScan, hm, hf, List.filterMap_cons, ih]
    · simp [vinaScan, hm, List.filterMap_cons, ih]

/-- C7: the docking-log scan returns the first whitespace-delimited token
parseable as a float on a line containing `REMARK VINA RESULT:`, stopping
at the first success in the file (the nested `head?`-of-`filterMap`
characterisation); an absent log, no marker line, or no parseable token
yields no score, and the collector then assigns the neutral placeholder
`0.0`. -/
theorem C7_vina_first_match (lines : List Str) (ts : List Str) :
    parse_vina_log (some lines) = (lines.filterMap fun l =>
        if containsSeq VINA_MARKER l then firstFloatToken (pySplitWs l) else none).head?
    ∧ firstFloatToken ts = (ts.filterMap pyFloat?).head?
    ∧ parse_vina_log none = none
    ∧ variantScore none = 0
    ∧ ((∀ l ∈ lines, containsSeq VINA_MARKER l = false) → variantScore (some lines) = 0)
    ∧ (parse_vina_log (some lines) = none → variantScore (some lines) = 0) := by
  refine ⟨vinaScan_eq lines, firstFloatToken_eq ts, rfl, rfl, fun h => ?_, fun h => ?_⟩
  · have hnil : (lines.filterMap fun l =>
        if containsSeq VINA_MARKER l then firstFloatToken (pySplitWs l) else none) = [] := by
      rw [List.filterMap_eq_nil_iff]
      intro l hl
      simp [h l hl]
    show (vinaScan lines).getD 0 = 0
    rw [vinaScan_eq lines, hnil]
    rfl
  · show (parse_vina_log (some lines)).getD 0 = 0
    rw [h]
    rfl

set_option maxRecDepth 40000 in
theorem C7_vina_first_match_witness :
    parse_vina_log (some vinaLog0) = some (-15/2)
    ∧ variantScore (some vinaLogNoMarker) = 0 := by
  constructor
  · rw [(C7_vina_first_match vinaLog0 []).1]
    with_unfolding_all decide
  · exact (C7_vina_first_match vinaLogNoMarker []).2.2.2.2.1 (by with_unfolding_all decide)

theorem dockStep_skip (bad : Row)
    (h : dictGet? bad kVariantId = none ∨ (dictGet? bad kDockingScore).bind pyFloat? = none)
    (st : List (Str × ℚ)) : dockStep st bad = st := by
  rcases h with h | h
  · unfold dockStep
    rw [h]
  · unfold dockStep
    rw [h]
    cases dictGet? bad kVariantId <;> rfl

theorem dockFold_get_none (rows : List Row) (vid : Str)
    (h : ∀ row ∈ rows, dictGet? row kVariantId = some vid →
      (dictGet? row kDockingScore).bind pyFloat? = none) :
    ∀ st, dictGet? st vid = none → dictGet? (rows.foldl dockStep st) vid = none := by
  induction rows with
  | nil =>
    intro st hst
    simpa using hst
  | cons row rows ih =>
    intro st hst
    rw [List.foldl_cons]
    apply ih (fun r hr hv => h r (List.mem_cons_of_mem _ hr) hv)
    unfold dockStep
    cases hv : dictGet? row kVariantId with
    | none => simpa using hst
    | some v =>
      cases hq : (dictGet? row kDockingScore).bind pyFloat? with
      | none => simpa using hst
      | some q =>
        have hvv : v ≠ vid := by
          intro e
          subst e
          exact absurd (h row (List.mem_cons_self _ _) hv) (by simp [hq])
        simpa [dictGet?_dictInsert_of_ne st q hvv] using hst

/-- C9: a docking CSV row whose required field is missing or whose score
is unparseable is skipped at row scope (the batch result equals the result
without the bad row); a variant all of whose rows are malformed ends up
with no docking entry, and at scoring time such a variant receives the
safe default docking score `0.0`. -/
theorem C9_row_recovery (pre post : List Row) (bad : Row) (rows : List Row) (vid : Str) :
    ((dictGet? bad kVariantId = none ∨ (dictGet? bad kDockingScore).bind pyFloat? = none) →
      read_docking_rows (pre ++ bad :: post) = read_docking_rows (pre ++ post))
    ∧ ((∀ row ∈ rows, dictGet? row kVariantId = some vid →
          (dictGet? row kDockingScore).bind pyFloat? = none) →
        dictGet? (read_docking_rows rows) vid = none)
    ∧ (∀ props seqs docking, dictGet? docking vid = none →
        ∀ r ∈ compute_composite_scores props seqs docking,
          r.variant_id = vid → r.docking_score = 0) := by
  refine ⟨fun h => ?_, fun h => dockFold_get_none rows vid h [] rfl,
    fun props seqs docking hd r hr hv => ?_⟩
  · unfold read_docking_rows
    rw [List.foldl_append, List.foldl_append, List.foldl_cons, dockStep_skip bad h]
  · exact docking_score_of_get_none hr (by rw [hv]; exact hd)

set_option maxRecDepth 40000 in
theorem C9_row_recovery_witness :
    read_docking_rows [goodRow, badRow] = read_docking_rows [goodRow]
    ∧ dictGet? (read_docking_rows [goodRow, badRow]) vV2 = none := by
  constructor
  · have h := (C9_row_recovery [goodRow] [] badRow [] vV2).1 (by with_unfolding_all decide)
    simpa using h
  · exact (C9_row_recovery [goodRow] [] badRow [goodRow, badRow] vV2).2.1
      (by with_unfolding_all decide)

theorem takeWhile_append_all {α : Type} (p : α → Bool) (u v : List α)
    (h : ∀ c ∈ u, p c = true) : (u ++ v).takeWhile p = u ++ v.takeWhile p := by
  induction u with
  | nil => simp
  | cons c cs ih =>
    have hc : p c = true := h c (List.mem_cons_self _ _)
    simp [List.takeWhile_cons, hc, ih (fun d hd => h d (List.mem_cons_of_mem _ hd))]

theorem splitWsAux_append_nonws (u : Str) :
    ∀ acc v, (∀ c ∈ u, c.isWhitespace = false) →
      splitWsAux (u ++ v) acc = splitWsAux v (u.reverse ++ acc) := by
  induction u with
  | nil =>
    intro acc v _
    simp
  | cons c cs ih =>
    intro acc v h
    have hc : c.isWhitespace = false := h c (List.mem_cons_self _ _)
    have step : splitWsAux (c :: (cs ++ v)) acc = splitWsAux (cs ++ v) (c :: acc) := by
      simp [splitWsAux, hc]
    rw [List.cons_append, step, ih (c :: acc) v (fun d hd => h d (List.mem_cons_of_mem _ hd))]
    simp [List.append_assoc]

theorem splitWsAux_flush (v : Str) :
    ∀ acc, acc ≠ [] →
      splitWsAux v acc = (acc.reverse ++ v.takeWhile (fun c => !c.isWhitespace)) ::
        pySplitWs ((v.dropWhile (fun c => !c.isWhitespace)).drop 1) := by
  induction v with
  | nil =>
    intro acc hacc
    simp [splitWsAux, hacc, pySplitWs]
  | cons c cs ih =>
    intro acc hacc
    by_cases hc : c.isWhitespace = true
    · have h1 : (!c.isWhitespace) = false := by rw [hc]; rfl
      simp [splitWsAux, hc, hacc, List.takeWhile_cons, List.dropWhile_cons, h1, pySplitWs]
    · have hc' : c.isWhitespace = false := by simpa using hc
      have h1 : (!c.isWhitespace) = true := by rw [hc']; rfl
      have step : splitWsAux (c :: cs) acc = splitWsAux cs (c :: acc) := by
        simp [splitWsAux, hc']
      rw [step, ih (c :: acc) (by simp)]
      simp [List.takeWhile_cons, List.dropWhile_cons, h1, List.append_assoc]

theorem pySplitWs_append_head (u v : Str) (hu : u ≠ [])
    (h : ∀ c ∈ u, c.isWhitespace = false) :
    pySplitWs (u ++ v) = (u ++ v.takeWhile (fun c => !c.isWhitespace)) ::
      pySplitWs ((v.dropWhile (fun c => !c.isWhitespace)).drop 1) := by
  rw [pySplitWs, splitWsAux_append_nonws u [] v h, List.append_nil,
    splitWsAux_flush v u.reverse (by simpa using hu)]
  simp

theorem pySplitOnChar_ne_nil (sep : Char) (s : Str) : pySplitOnChar sep s ≠ [] := by
  induction s with
  | nil => simp [pySplitOnChar]
  | cons c cs ih =>
    by_cases hc : c = sep
    · simp [pySplitOnChar, hc]
    · simp only [pySplitOnChar, hc, if_false]
      cases h : pySplitOnChar sep cs with
      | nil => simp
      | cons t ts => simp

theorem headI_pySplitOnChar (sep : Char) (s : Str) :
    (pySplitOnChar sep s).headI = s.takeWhile (fun c => c != sep) := by
  induction s with
  | nil => rfl
  | cons c cs ih =>
    by_cases hc : c = sep
    · subst hc
      simp [pySplitOnChar, List.takeWhile_cons]
    · have hcb : (c != sep) = true := by simp [hc]
      simp only [pySplitOnChar, hc, if_false]
      cases h : pySplitOnChar sep cs with
      | nil => exact absurd h (pySplitOnChar_ne_nil sep cs)
      | cons t ts =>
        rw [h] at ih
        simp only [List.headI, List.takeWhile_cons, hcb, if_true]
        rw [← ih]
        rfl

theorem splitWsAux_ne_nil_acc (s : Str) :
    ∀ acc, acc ≠ [] → splitWsAux s acc ≠ [] := by
  induction s with
  | nil =>
    intro acc hacc
    simp [splitWsAux, hacc]
  | cons c cs ih =>
    intro acc hacc
    by_cases hc : c.isWhitespace = true
    · simp [splitWsAux, hc, hacc]
    · have hc' : c.isWhitespace = false := by simpa using hc
      simpa [splitWsAux, hc'] using ih (c :: acc) (by simp)

theorem splitWsAux_ne_nil_of_mem (s : Str) :
    ∀ acc, (∃ c ∈ s, c.isWhitespace = false) → splitWsAux s acc ≠ [] := by
  induction s with
  | nil =>
    intro acc h
    rcases h with ⟨c, hc, -⟩
    cases hc
  | cons c cs ih =>
    intro acc h
    by_cases hc : c.isWhitespace = true
    · have h' : ∃ d ∈ cs, d.isWhitespace = false := by
        rcases h with ⟨d, hd, hdw⟩
        rcases List.mem_cons.1 hd with rfl | hd'
        · rw [hc] at hdw
          cases hdw
        · exact ⟨d, hd', hdw⟩
      by_cases hacc : acc = []
      · subst hacc
        simpa [splitWsAux, hc] using ih [] h'
      · simp [splitWsAux, hc, hacc]
    · have hc' : c.isWhitespace = false := by simpa using hc
      simpa [splitWsAux, hc'] using splitWsAux_ne_nil_acc cs (c :: acc) (by simp)

theorem pySplitWs_nil_of_all_ws (s : Str) (h : ∀ c ∈ s, c.isWhitespace = true) :
    pySplitWs s = [] := by
  induction s with
  | nil => rfl
  | cons c cs ih =>
    have hc := h c (List.mem_cons_self _ _)
    have htl := ih (fun d hd => h d (List.mem_cons_of_mem _ hd))
    rw [pySplitWs] at htl
    show splitWsAux (c :: cs) [] = []
    simp [splitWsAux, hc, htl]

theorem fastaStep_isSome (st : FastaSt) (l : Str) (h : headerSafe l = true) :
    (fastaStep st l).isSome = true := by
  rcases hps : pyStrip l with - | ⟨c, rest⟩
  · simp [fastaStep, hps]
  · by_cases hc : c = '>'
    · subst hc
      simp only [headerSafe, hps, if_pos rfl] at h
      have hne : pySplitWs rest ≠ [] := by
        apply splitWsAux_ne_nil_of_mem rest []
        rcases List.any_eq_true.1 h with ⟨d, hd, hdw⟩
        exact ⟨d, hd, by simpa using hdw⟩
      rcases hpw : pySplitWs rest with - | ⟨raw, ts⟩
      · exact absurd hpw hne
      · simp [fastaStep, hps, canonicalId, hpw]
    · simp [fastaStep, hps, hc]

theorem fastaFold_isSome (lines : List Str) :
    (∀ l ∈ lines, headerSafe l = true) → ∀ st : FastaSt,
      (List.foldlM fastaStep st lines).isSome = true := by
  induction lines with
  | nil =>
    intro _ st
    rfl
  | cons l ls ih =>
    intro h st
    rw [List.foldlM_cons]
    cases hstep : fastaStep st l with
    | none =>
      have hsome := fastaStep_isSome st l (h l (List.mem_cons_self _ _))
      rw [hstep] at hsome
      cases hsome
    | some st' =>
      simpa [hstep] using ih (fun x hx => h x (List.mem_cons_of_mem _ hx)) st'

theorem fastaFold_none_of_bad (lines : List Str) (l : Str) (rest : Str) :
    l ∈ lines → pyStrip l = '>' :: rest → (∀ d ∈ rest, d.isWhitespace = true) →
      ∀ st : FastaSt, List.foldlM fastaStep st lines = none := by
  induction lines with
  | nil =>
    intro hl
    cases hl
  | cons l₀ ls ih =>
    intro hl hps hws st
    rw [List.foldlM_cons]
    rcases List.mem_cons.1 hl with rfl | hl'
    · have hstep : fastaStep st l = none := by
        simp [fastaStep, hps, canonicalId, pySplitWs_nil_of_all_ws rest hws]
      simp [hstep]
    · cases hstep : fastaStep st l₀ with
      | none => simp [hstep]
      | some st' => simpa [hstep] using ih hl' hps hws st'

/-- C8: canonical-id derivation round-trips the identifier: for a header
body `ID|extra` the derived canonical id is `ID`, and for `ID extra` it is
also `ID`, whenever `ID` is a nonempty identifier with no whitespace and
no `|` in it. -/
theorem C8_canonical_id (ID extra : Str) (hne : ID ≠ [])
    (hws : ∀ c ∈ ID, c.isWhitespace = false) (hbar : '|' ∉ ID) :
    canonicalId (ID ++ '|' :: extra) = some ID
    ∧ canonicalId (ID ++ ' ' :: extra) = some ID := by
  have hallbne : ∀ c ∈ ID, (c != '|') = true := by
    intro c hc
    simp only [bne_iff_ne, ne_eq]
    exact fun e => hbar (e ▸ hc)
  constructor
  · have h1 := pySplitWs_append_head ID ('|' :: extra) hne hws
    have hbarnw : ((!('|' : Char).isWhitespace) = true) := by decide
    rw [List.takeWhile_cons, if_pos hbarnw] at h1
    simp only [canonicalId, h1]
    have hbb : ¬ ((('|' : Char) != '|') = true) := by decide
    rw [headI_pySplitOnChar, takeWhile_append_all _ ID _ hallbne, List.takeWhile_cons,
      if_neg hbb, List.append_nil]
  · have h2 := pySplitWs_append_head ID (' ' :: extra) hne hws
    have hsp : ¬ ((!(' ' : Char).isWhitespace) = true) := by decide
    rw [List.takeWhile_cons, if_neg hsp, List.append_nil] at h2
    simp only [canonicalId, h2]
    rw [headI_pySplitOnChar]
    have htake : ID.takeWhile (fun c => c != '|') = ID := by
      simpa using takeWhile_append_all (fun c => c != '|') ID [] hallbne
    rw [htake]

theorem C8_canonical_id_witness :
    canonicalId ("P01|extra info".toList) = some ("P01".toList)
    ∧ canonicalId ("P01 extra".toList) = some ("P01".toList) := by
  have h1 := (C8_canonical_id ("P01".toList) ("extra info".toList)
    (by decide) (by decide) (by decide)).1
  have h2 := (C8_canonical_id ("P01".toList) ("extra".toList)
    (by decide) (by decide) (by decide)).2
  have e1 : "P01|extra info".toList = "P01".toList ++ '|' :: "extra info".toList := by decide
  have e2 : "P01 extra".toList = "P01".toList ++ ' ' :: "extra".toList := by decide
  rw [e1, e2]
  exact ⟨h1, h2⟩

/-- C10: `read_library_fasta` is total exactly under the precondition that
every header line has a non-whitespace character after the `>` marker
(`headerSafe`); a header that is bare `>` — or `>` followed only by
whitespace — makes the function fail (the modelled IndexError of the
header-token lookup) rather than skip or default the record. -/
theorem C10_empty_header (lines : List Str) (l rest : Str) :
    ((∀ x ∈ lines, headerSafe x = true) → ∃ m, read_library_fasta lines = some m)
    ∧ (headerSafe l = true ↔ ∀ r, pyStrip l = '>' :: r → ∃ d ∈ r, d.isWhitespace = false)
    ∧ (l ∈ lines → pyStrip l = '>' :: rest → (∀ d ∈ rest, d.isWhitespace = true) →
        read_library_fasta lines = none)
    ∧ read_library_fasta [['>']] = none := by
  refine ⟨fun h => ?_, ⟨fun hsafe r hr => ?_, fun hex => ?_⟩, fun hl hps hws => ?_, by decide⟩
  · have hs := fastaFold_isSome lines h { sequences := [], current_id := none, seq_chunks := [] }
    rcases Option.isSome_iff_exists.1 hs with ⟨st', hst⟩
    exact ⟨flushFasta st', by rw [read_library_fasta, hst]; rfl⟩
  · have hany : (r.any fun d => !d.isWhitespace) = true := by
      simpa [headerSafe, hr] using hsafe
    rcases List.any_eq_true.1 hany with ⟨d, hd, hdw⟩
    exact ⟨d, hd, by simpa using hdw⟩
  · rcases hps : pyStrip l with - | ⟨c, r⟩
    · simp [headerSafe, hps]
    · by_cases hc : c = '>'
      · subst hc
        rcases hex r hps with ⟨d, hd, hdw⟩
        simp only [headerSafe, hps, if_pos rfl]
        exact List.any_eq_true.2 ⟨d, hd, by simp [hdw]⟩
      · simp [headerSafe, hps, hc]
  · have h := fastaFold_none_of_bad lines l rest hl hps hws
      { sequences := [], current_id := none, seq_chunks := [] }
    rw [read_library_fasta, h]
    rfl

theorem C10_empty_header_witness :
    (∃ m, read_library_fasta [">P1 x".toList, "AA".toList] = some m)
    ∧ read_library_fasta ["> ".toList, "AA".toList] = none := by
  constructor
  · exact (C10_empty_header [">P1 x".toList, "AA".toList] [] []).1 (by decide)
  · exact (C10_empty_header ["> ".toList, "AA".toList] "> ".toList []).2.2.1
      (by decide) (by decide) (by decide)

end Peptide
